import Mathlib

/-!
Verification of the image/signal batch processor (src/fn.cpp).

The development shallowly embeds the two processing pipelines:

  * SignalProcessor: movingAverage, findPeaks, processSignal and the line parser
    built on std::stod (samples are modelled as exact rationals);
  * ImageProcessor: the file enumerator, the batch sweep driver with its
    parameter-directory naming, the corpus analyzer and construction.

Machine integers are modelled as Nat / Int with explicit wraparound where the
C++ code can overflow (size_t arithmetic in findPeaks), and C integer division
(truncation toward zero) is Int.tdiv.  Filesystem and image-codec operations
are external collaborators: a directory listing is a value of type
List DirEntry, a decoded image is an optional pair of pixel dimensions.
-/

/- ================= SignalProcessor: moving average ================= -/

/-- Half window: the C expression window_size / 2 on int, i.e. integer division
truncating toward zero, from SignalProcessor::movingAverage (src/fn.cpp:268). -/
def halfWindow (w : ℤ) : ℤ := Int.tdiv w 2

/-- Window lower bound: std::max(0, (int)i - window_size / 2) (src/fn.cpp:268). -/
def winStart (w : ℤ) (i : ℕ) : ℤ := max 0 ((i : ℤ) - halfWindow w)

/-- Window upper bound:
std::min((int)(signal.size() - 1), (int)i + window_size / 2) (src/fn.cpp:269-270). -/
def winStop (w : ℤ) (n : ℕ) (i : ℕ) : ℤ := min ((n : ℤ) - 1) ((i : ℤ) + halfWindow w)

/-- The indices j visited by the inner loop for (int j = start; j <= end; ++j)
(src/fn.cpp:273-276), in increasing order; empty when start exceeds end. -/
def winIdxs (w : ℤ) (n i : ℕ) : List ℕ :=
  (List.range (winStop w n i + 1 - winStart w i).toNat).map
    fun k => (winStart w i).toNat + k

/-- SignalProcessor::movingAverage (src/fn.cpp:260-282).  Samples are exact
rationals; result[i] is the window sum divided by the visit count.  When the
count is 0 (possible only for window_size below -1) the C++ code computes
0.0 / 0, a NaN; the model then yields the rational convention value 0, and no
theorem below relies on the value in that case. -/
def movingAverage (w : ℤ) (signal : List ℚ) : List ℚ :=
  (List.range signal.length).map fun i =>
    let idxs := winIdxs w signal.length i
    (idxs.map fun j => signal.getD j 0).sum / (idxs.length : ℚ)

/- ================= SignalProcessor: peak detection ================= -/

/-- Modulus of size_t arithmetic on a 64-bit target. -/
def sizeTMod : ℕ := 2 ^ 64

/-- The value of the C++ expression signal.size() - 1 on size_t: subtraction
wraps modulo 2 ^ 64, so an empty signal yields 2 ^ 64 - 1. -/
def sizeSub1 (n : ℕ) : ℕ := (n + (sizeTMod - 1)) % sizeTMod

/-- The loop of SignalProcessor::findPeaks (src/fn.cpp:289-294), one step per
remaining iteration.  The loop body reads signal[i-1], signal[i] and
signal[i+1]; an index out of range is an out-of-bounds vector access
(undefined behavior in C++), modelled as the result none. -/
def findPeaksIter (s : List ℚ) (thr : ℚ) : ℕ → ℕ → List ℕ → Option (List ℕ)
  | 0, _, acc => some acc
  | rem + 1, i, acc =>
    if i - 1 < s.length ∧ i < s.length ∧ i + 1 < s.length then
      let a := s.getD (i - 1) 0
      let b := s.getD i 0
      let c := s.getD (i + 1) 0
      findPeaksIter s thr rem (i + 1) (if b > a ∧ b > c ∧ b > thr then acc ++ [i] else acc)
    else none

/-- SignalProcessor::findPeaks (src/fn.cpp:285-297): the header
for (size_t i = 1; i < signal.size() - 1; ++i) runs the body
(signal.size() - 1) - 1 times starting at i = 1, where signal.size() - 1 is
computed in size_t and wraps to 2 ^ 64 - 1 on the empty signal. -/
def findPeaks (s : List ℚ) (thr : ℚ) : Option (List ℕ) :=
  findPeaksIter s thr (sizeSub1 s.length - 1) 1 []

/-- The reference peak predicate at an interior index: strict local maximum
strictly above the threshold. -/
def isPeak (s : List ℚ) (thr : ℚ) (i : ℕ) : Prop :=
  1 ≤ i ∧ i + 1 < s.length ∧
    s.getD (i - 1) 0 < s.getD i 0 ∧ s.getD (i + 1) 0 < s.getD i 0 ∧ thr < s.getD i 0

instance (s : List ℚ) (thr : ℚ) (i : ℕ) : Decidable (isPeak s thr i) := by
  unfold isPeak; infer_instance

/- ================= SignalProcessor: line parsing and processSignal ================= -/

/-- The six whitespace characters skipped by strtod in the C locale. -/
def isSpaceChar (c : Char) : Bool :=
  c = ' ' || c = '\t' || c = '\n' || c = '\x0b' || c = '\x0c' || c = '\r'

/-- ASCII decimal digit test. -/
def isDigitChar (c : Char) : Bool := '0' ≤ c && c ≤ '9'

/-- Value of a list of decimal digit characters, most significant first. -/
def digitsToNat (ds : List Char) : ℕ := ds.foldl (fun a c => 10 * a + (c.toNat - 48)) 0

/-- Model of std::stod on the decimal floating-point syntax: optional
whitespace, optional sign, digits with an optional fractional part (at least
one digit overall), and an optional exponent that is consumed only when it has
at least one digit.  The longest valid prefix is converted and the rest of the
line is ignored; none models std::invalid_argument (no conversion possible),
which the caller of processSignal catches to skip the line.  The value is kept
as an exact rational: rounding to double, the hexadecimal/infinity/nan forms
and the std::out_of_range check for values beyond the range of double are
outside the model. -/
def stod (s : List Char) : Option ℚ :=
  let t := s.dropWhile isSpaceChar
  let sgn : ℚ := if t.head? = some '-' then -1 else 1
  let t1 := if t.head? = some '-' || t.head? = some '+' then t.drop 1 else t
  let intPart := t1.takeWhile isDigitChar
  let t2 := t1.dropWhile isDigitChar
  let fracPart := if t2.head? = some '.' then (t2.drop 1).takeWhile isDigitChar else []
  let t3 := if t2.head? = some '.' then (t2.drop 1).dropWhile isDigitChar else t2
  if intPart.isEmpty && fracPart.isEmpty then none
  else
    let mant : ℚ := (digitsToNat intPart : ℚ) + (digitsToNat fracPart : ℚ) / (10 : ℚ) ^ fracPart.length
    let expVal : ℤ :=
      if t3.head? = some 'e' || t3.head? = some 'E' then
        let u := t3.drop 1
        let esgn : ℤ := if u.head? = some '-' then -1 else 1
        let u1 := if u.head? = some '-' || u.head? = some '+' then u.drop 1 else u
        let eds := u1.takeWhile isDigitChar
        if eds.isEmpty then 0 else esgn * (digitsToNat eds : ℤ)
      else 0
    some (sgn * mant * (10 : ℚ) ^ expVal)

/-- The reading loop of SignalProcessor::processSignal (src/fn.cpp:310-322):
the first line (assumed header) is discarded unconditionally, every later line
is retained exactly when std::stod converts it. -/
def parseSignal (lines : List (List Char)) : List ℚ :=
  (lines.drop 1).filterMap stod

/-- One data row of the output file: columns original, filtered, is_peak. -/
structure OutRow where
  original : ℚ
  filtered : ℚ
  is_peak : Bool
deriving DecidableEq

/-- The header line written by processSignal (src/fn.cpp:340). -/
def outputHeaderRow : List Char := "original,filtered,is_peak".data

/-- SignalProcessor::processSignal (src/fn.cpp:299-352) after the input file
has been opened: parse, filter, detect peaks, and produce one output row per
retained sample with is_peak set by std::find over the peak list.  The result
is none when findPeaks performs an out-of-bounds access (empty retained
signal), in which case the C++ program has undefined behavior before the
output file is even opened. -/
def processSignal (w : ℤ) (thr : ℚ) (lines : List (List Char)) : Option (List OutRow) :=
  let signal := parseSignal lines
  let filtered := movingAverage w signal
  (findPeaks filtered thr).map fun peaks =>
    (List.range signal.length).map fun i =>
      ⟨signal.getD i 0, filtered.getD i 0, peaks.contains i⟩

/- ================= File enumeration ================= -/

/-- One entry produced by fs::recursive_directory_iterator: its path, whether
it is a regular file, and the extension component of the path. -/
structure DirEntry where
  path : List Char
  isRegularFile : Bool
  extension : List Char
deriving DecidableEq

/-- The allow-set of ImageProcessor::loadImagePaths (src/fn.cpp:53). -/
def imageExtensions : List (List Char) :=
  [".jpg".data, ".jpeg".data, ".png".data, ".bmp".data, ".tif".data, ".tiff".data]

/-- ::tolower in the C locale on ASCII input, applied characterwise by
std::transform (src/fn.cpp:61). -/
def asciiToLower (c : Char) : Char :=
  if 'A' ≤ c ∧ c ≤ 'Z' then Char.ofNat (c.toNat + 32) else c

/-- ImageProcessor::loadImagePaths (src/fn.cpp:48-68): keep regular files whose
lowercased extension is in the allow-set, in traversal order. -/
def loadImagePaths (entries : List DirEntry) : List (List Char) :=
  (entries.filter fun e =>
      e.isRegularFile && imageExtensions.contains (e.extension.map asciiToLower)).map
    DirEntry.path

/-- SignalProcessor::loadSignalFiles (src/fn.cpp:242-252): keep regular files
whose extension compares equal to ".csv" (an exact, case-sensitive comparison
of fs::path values). -/
def loadSignalFiles (entries : List DirEntry) : List (List Char) :=
  (entries.filter fun e => e.isRegularFile && e.extension == ".csv".data).map DirEntry.path

/- ================= Batch sweep driver ================= -/

/-- Decimal digit characters of n, most significant first, least significant
digit pushed first; fuel bounds the number of divisions and n itself always
suffices.  Together with natToChars this mirrors std::to_string on int. -/
def natToCharsAux : ℕ → ℕ → List Char → List Char
  | 0, _, acc => acc
  | fuel + 1, n, acc =>
    if n = 0 then acc else natToCharsAux fuel (n / 10) (Char.ofNat (48 + n % 10) :: acc)

/-- Decimal representation of a natural number, as std::to_string produces it
(no leading zeros, and the single digit 0 for zero). -/
def natToChars (n : ℕ) : List Char :=
  if n = 0 then ['0'] else natToCharsAux n n []

/-- std::to_string on int: a minus sign followed by the digits of the absolute
value for negatives. -/
def intToChars (i : ℤ) : List Char :=
  if i < 0 then '-' :: natToChars i.natAbs else natToChars i.natAbs

/-- static_cast<int> applied to a floating value, modelled on exact rationals:
truncation toward zero. -/
def truncQ (q : ℚ) : ℤ := Int.tdiv q.num q.den

/-- The sweep cell directory (src/fn.cpp:149-150):
output_dir + "/blur" + std::to_string(blur) + "_contrast" +
std::to_string(static_cast<int>(contrast * 10)). -/
def paramDirName (outputDir : List Char) (blur : ℤ) (contrast : ℚ) : List Char :=
  outputDir ++ "/blur".data ++ intToChars blur ++ "_contrast".data ++
    intToChars (truncQ (contrast * 10))

/-- The (blur, contrast) pairs visited by the nested loops of
ImageProcessor::batchProcess (src/fn.cpp:146-147): outer loop over blur_sizes,
inner loop over contrast_values. -/
def sweepCells (blurs : List ℤ) (contrasts : List ℚ) : List (ℤ × ℚ) :=
  blurs.flatMap fun b => contrasts.map fun c => (b, c)

/-- The fields of an ImageProcessor instance (src/fn.cpp:12-22). -/
structure IPState where
  image_paths : List (List Char)
  output_dir : List Char
  verbose : Bool
  blur_size : ℤ
  contrast_alpha : ℚ
  contrast_beta : ℤ
  apply_edge_detection : Bool
deriving DecidableEq

/-- ImageProcessor::setProcessingParameters (src/fn.cpp:70-76). -/
def setProcessingParameters (s : IPState) (blur : ℤ) (alpha : ℚ) (beta : ℤ) (edge : Bool) :
    IPState :=
  { s with blur_size := blur, contrast_alpha := alpha, contrast_beta := beta,
           apply_edge_detection := edge }

/-- One iteration of the batchProcess loop body (src/fn.cpp:148-171): build the
parameter directory from the current output_dir, set the parameters for the
pair (keeping the current contrast_beta and apply_edge_detection), redirect
output_dir to the parameter directory, run processAllImages, and restore the
saved output_dir.  processAllImages (src/fn.cpp:121-141) performs only file and
console I/O and leaves every field unchanged, so it is the identity on the
state. -/
def batchStep (s : IPState) (cell : ℤ × ℚ) : IPState :=
  let param_dir := paramDirName s.output_dir cell.1 cell.2
  let s1 := setProcessingParameters s cell.1 cell.2 s.contrast_beta s.apply_edge_detection
  let s2 := { s1 with output_dir := param_dir }
  { s2 with output_dir := s.output_dir }

/-- ImageProcessor::batchProcess (src/fn.cpp:144-174). -/
def batchProcess (s : IPState) (blurs : List ℤ) (contrasts : List ℚ) : IPState :=
  (sweepCells blurs contrasts).foldl batchStep s

/- ================= Corpus analyzer ================= -/

/-- One file of the image corpus: its byte size and, when cv::imread succeeds,
the decoded pixel dimensions (cols, rows). -/
structure ImgFile where
  byteSize : ℕ
  decoded : Option (ℤ × ℤ)
deriving DecidableEq

/-- INT_MAX on a 32-bit int, the initial value of the running minima
(src/fn.cpp:184-185). -/
def intMax : ℤ := 2 ^ 31 - 1

/-- The four dimension accumulators of analyzeImages. -/
structure DimStats where
  min_width : ℤ
  max_width : ℤ
  min_height : ℤ
  max_height : ℤ
deriving DecidableEq

/-- One iteration of the statistics loop (src/fn.cpp:187-199) restricted to the
dimension accumulators: a file that fails to decode leaves them unchanged. -/
def dimStep (st : DimStats) (f : ImgFile) : DimStats :=
  match f.decoded with
  | some wh =>
    ⟨min st.min_width wh.1, max st.max_width wh.1, min st.min_height wh.2, max st.max_height wh.2⟩
  | none => st

/-- What ImageProcessor::analyzeImages (src/fn.cpp:177-207) reports. -/
inductive AnalyzeResult where
  | noImages : AnalyzeResult
  | stats (count : ℕ) (totalSize : ℕ) (avgKB : ℚ) (dims : DimStats) : AnalyzeResult
deriving DecidableEq

/-- ImageProcessor::analyzeImages: an empty path list short-circuits to the
"No images to analyze" report; otherwise every file contributes its byte size
to the total, decodable files update the dimension extrema, and the average is
total_size / (1024.0 * image_paths.size()). -/
def analyzeImages (corpus : List ImgFile) : AnalyzeResult :=
  if corpus.isEmpty then .noImages
  else
    let totalSize := (corpus.map ImgFile.byteSize).sum
    .stats corpus.length totalSize ((totalSize : ℚ) / (1024 * (corpus.length : ℚ)))
      (corpus.foldl dimStep ⟨intMax, 0, intMax, 0⟩)

/- ================= Pipeline construction ================= -/

/-- Construction failure: fs::recursive_directory_iterator throws
std::filesystem::filesystem_error (no such file or directory) for a
nonexistent root. -/
inductive FsErr where
  | directoryNotFound : FsErr
deriving DecidableEq

/-- ImageProcessor::ImageProcessor (src/fn.cpp:25-46).  The recursive listing
of the input root is the external filesystem collaborator: none models the
iterator constructor throwing for a nonexistent root, and the exception
propagates out of the C++ constructor, so no object and no corpus exist.
Otherwise the corpus is loaded by loadImagePaths and the parameter defaults
are blur 5, contrast 1.5, beta 10, edge detection on. -/
def ImageProcessor.construct (listing : Option (List DirEntry)) (outputDir : List Char)
    (verbose : Bool) : Except FsErr IPState :=
  match listing with
  | none => .error .directoryNotFound
  | some entries => .ok ⟨loadImagePaths entries, outputDir, verbose, 5, 3 / 2, 10, true⟩

/-- The fields of a SignalProcessor instance (src/fn.cpp:210-218). -/
structure SPState where
  signal_files : List (List Char)
  output_dir : List Char
  verbose : Bool
  window_size : ℤ
  threshold : ℚ
deriving DecidableEq

/-- SignalProcessor::SignalProcessor (src/fn.cpp:221-240), with defaults
window 10 and threshold 0.5; the listing argument is as in
ImageProcessor.construct. -/
def SignalProcessor.construct (listing : Option (List DirEntry)) (outputDir : List Char)
    (verbose : Bool) : Except FsErr SPState :=
  match listing with
  | none => .error .directoryNotFound
  | some entries => .ok ⟨loadSignalFiles entries, outputDir, verbose, 10, 1 / 2⟩

/- ================= General list helpers ================= -/

/-- A sum over a closed natural interval as a sum over the corresponding
explicit index list. -/
lemma sum_Icc_eq_list_sum (lo hi : ℕ) (f : ℕ → ℚ) :
    (∑ j in Finset.Icc lo hi, f j) = ((List.range' lo (hi + 1 - lo)).map f).sum := by
  rw [Nat.Icc_eq_range']
  simp [Finset.sum, Multiset.map_coe, Multiset.sum_coe]

lemma getD_map_range (n i : ℕ) (f : ℕ → ℚ) (h : i < n) :
    ((List.range n).map f).getD i 0 = f i := by
  rw [List.getD_eq_getElem?_getD, List.getElem?_map, List.getElem?_range h]
  rfl

lemma getD_mem_of_lt {l : List ℚ} {i : ℕ} (h : i < l.length) (d : ℚ) : l.getD i d ∈ l := by
  rw [List.getD_eq_getElem?_getD, List.getElem?_eq_getElem h]
  exact List.getElem_mem h

lemma map_getD_range_self (l : List ℚ) :
    ((List.range l.length).map fun i => l.getD i 0) = l := by
  apply List.ext_getElem?
  intro n
  rcases lt_or_le n l.length with h | h
  · rw [List.getElem?_map, List.getElem?_range h, List.getElem?_eq_getElem h]
    simp [List.getD_eq_getElem?_getD, List.getElem?_eq_getElem h]
  · rw [List.getElem?_eq_none, List.getElem?_eq_none h]
    simpa using h

lemma filterMap_eq_of_map_some {α β : Type} (f : α → Option β) :
    ∀ (l : List α) (vs : List β), l.map f = vs.map some → l.filterMap f = vs := by
  intro l
  induction l with
  | nil =>
    intro vs h
    cases vs with
    | nil => rfl
    | cons v vs => simp at h
  | cons a l ih =>
    intro vs h
    cases vs with
    | nil => simp at h
    | cons v vs =>
      simp only [List.map_cons, List.cons.injEq] at h
      rw [List.filterMap_cons, h.1, ih vs h.2]

/- ================= Moving average: C1 ================= -/

lemma halfWindow_toNat {w : ℤ} (hw : 0 ≤ w) : halfWindow w = ((w.toNat / 2 : ℕ) : ℤ) := by
  obtain ⟨m, rfl⟩ : ∃ m : ℕ, w = (m : ℤ) := ⟨w.toNat, (Int.toNat_of_nonneg hw).symm⟩
  rw [Int.toNat_natCast]
  rfl

lemma movingAverage_length (w : ℤ) (s : List ℚ) :
    (movingAverage w s).length = s.length := by
  simp [movingAverage]

/-- For a nonnegative window parameter the index list of the inner loop is
exactly the closed interval from i - w/2 (clipped at 0) to
min (n-1) (i + w/2). -/
lemma winIdxs_eq_range' {w : ℤ} (hw : 0 ≤ w) {n i : ℕ} (hi : i < n) :
    winIdxs w n i =
      List.range' (i - w.toNat / 2) (min (n - 1) (i + w.toNat / 2) + 1 - (i - w.toNat / 2)) := by
  have h2 := halfWindow_toNat hw
  unfold winIdxs winStart winStop
  rw [h2, List.range'_eq_map_range]
  have e1 : (max 0 ((i : ℤ) - ((w.toNat / 2 : ℕ) : ℤ))).toNat = i - w.toNat / 2 := by omega
  have e2 : (min ((n : ℤ) - 1) ((i : ℤ) + ((w.toNat / 2 : ℕ) : ℤ)) + 1 -
      max 0 ((i : ℤ) - ((w.toNat / 2 : ℕ) : ℤ))).toNat
      = min (n - 1) (i + w.toNat / 2) + 1 - (i - w.toNat / 2) := by omega
  rw [e1, e2]

/-- C1 (amended to nonnegative window sizes): movingAverage preserves the
length for every window size, and for a nonnegative window size the value at
each index is the arithmetic mean over the clipped closed index range, whose
window always holds at least one sample. -/
theorem movingAverage_clipped_mean :
    (∀ (w : ℤ) (s : List ℚ), (movingAverage w s).length = s.length) ∧
    (∀ (w : ℤ) (s : List ℚ) (i : ℕ), 0 ≤ w → i < s.length →
      (Finset.Icc (i - w.toNat / 2) (min (s.length - 1) (i + w.toNat / 2))).Nonempty ∧
      (movingAverage w s).getD i 0 =
        (∑ j in Finset.Icc (i - w.toNat / 2) (min (s.length - 1) (i + w.toNat / 2)),
            s.getD j 0) /
          ((Finset.Icc (i - w.toNat / 2) (min (s.length - 1) (i + w.toNat / 2))).card : ℚ)) := by
  constructor
  · exact movingAverage_length
  · intro w s i hw hi
    constructor
    · exact Finset.nonempty_Icc.mpr (by omega)
    · unfold movingAverage
      rw [getD_map_range _ _ _ hi]
      rw [winIdxs_eq_range' hw hi]
      rw [sum_Icc_eq_list_sum, Nat.card_Icc]
      simp

/-- Witness for C1: window size 2 on the signal 1, 3. -/
theorem movingAverage_clipped_mean_witness :
    (movingAverage 2 [(1 : ℚ), 3]).length = 2 ∧
    ((Finset.Icc (1 - (2 : ℤ).toNat / 2) (min (List.length [(1 : ℚ), 3] - 1) (1 + (2 : ℤ).toNat / 2))).Nonempty ∧
      (movingAverage 2 [(1 : ℚ), 3]).getD 1 0 =
        (∑ j in Finset.Icc (1 - (2 : ℤ).toNat / 2) (min (List.length [(1 : ℚ), 3] - 1) (1 + (2 : ℤ).toNat / 2)),
            ([(1 : ℚ), 3]).getD j 0) /
          ((Finset.Icc (1 - (2 : ℤ).toNat / 2) (min (List.length [(1 : ℚ), 3] - 1) (1 + (2 : ℤ).toNat / 2))).card : ℚ)) :=
  ⟨movingAverage_clipped_mean.1 2 [(1 : ℚ), 3],
    movingAverage_clipped_mean.2 2 [(1 : ℚ), 3] 1 (by decide) (by decide)⟩

/-- C1 counterexample: with window size -2 the half window is -1, so at index
0 of a one-sample signal the inner loop visits no index at all: the averaging
window holds zero samples, against the claim that it always holds at least
one, and the C++ code then divides 0.0 by 0. -/
theorem movingAverage_negative_window_empty :
    winIdxs (-2) (List.length [(5 : ℚ)]) 0 = [] ∧ 0 < List.length [(5 : ℚ)] ∧
      halfWindow (-2) = -1 := by
  decide

/- ================= Peak detection: C2, C3 ================= -/

lemma sizeSub1_of_pos {n : ℕ} (h1 : 1 ≤ n) (h2 : n < sizeTMod) : sizeSub1 n = n - 1 := by
  unfold sizeSub1 sizeTMod at *
  omega

lemma sizeSub1_zero : sizeSub1 0 = 2 ^ 64 - 1 := by
  decide

/-- On the empty signal the loop bound wraps around and the very first
iteration already reads signal[0] and signal[1], both out of range. -/
lemma findPeaks_nil (thr : ℚ) : findPeaks ([] : List ℚ) thr = none := by
  have h : sizeSub1 (List.length ([] : List ℚ)) - 1 = (2 ^ 64 - 3) + 1 := by decide
  rw [findPeaks, h, findPeaksIter]
  simp

/-- Unrolled loop invariant: starting at index i with rem iterations left and
i + rem + 1 = length, the loop terminates normally and appends exactly the
peak indices among i, ..., i + rem - 1 to the accumulator. -/
lemma findPeaksIter_spec (s : List ℚ) (thr : ℚ) :
    ∀ (rem i : ℕ) (acc : List ℕ), 1 ≤ i → i + rem + 1 = s.length →
      findPeaksIter s thr rem i acc =
        some (acc ++ ((List.range rem).map fun k => i + k).filter fun j => decide (isPeak s thr j)) := by
  intro rem
  induction rem with
  | zero =>
    intro i acc h1 hlen
    simp [findPeaksIter]
  | succ rem ih =>
    intro i acc h1 hlen
    have hb : i - 1 < s.length ∧ i < s.length ∧ i + 1 < s.length := by omega
    rw [findPeaksIter, if_pos hb, ih (i + 1) _ (by omega) (by omega)]
    have hmap : ((List.range (rem + 1)).map fun k => i + k) =
        i :: ((List.range rem).map fun k => (i + 1) + k) := by
      rw [List.range_succ_eq_map]
      simp only [List.map_cons, List.map_map, Nat.add_zero]
      congr 1
      apply List.map_congr_left
      intro k hk
      simp only [Function.comp_apply]
      omega
    have hiff : (s.getD i 0 > s.getD (i - 1) 0 ∧ s.getD i 0 > s.getD (i + 1) 0 ∧
        s.getD i 0 > thr) ↔ isPeak s thr i := by
      unfold isPeak
      constructor
      · exact fun h => ⟨h1, hb.2.2, h.1, h.2.1, h.2.2⟩
      · exact fun h => ⟨h.2.2.1, h.2.2.2.1, h.2.2.2.2⟩
    rw [hmap, List.filter_cons]
    by_cases hc : isPeak s thr i
    · rw [if_pos (hiff.mpr hc), if_pos (decide_eq_true hc)]
      simp
    · rw [if_neg (fun h => hc (hiff.mp h)), if_neg (fun h => hc (of_decide_eq_true h))]

/-- For a nonempty signal whose length fits in size_t, the loop terminates
normally and returns the peak indices 1, ..., length - 2 in order. -/
lemma findPeaks_eq_filter (s : List ℚ) (thr : ℚ) (h1 : 1 ≤ s.length)
    (h2 : s.length < sizeTMod) :
    findPeaks s thr =
      some (((List.range (s.length - 2)).map fun k => 1 + k).filter
        fun j => decide (isPeak s thr j)) := by
  rw [findPeaks, sizeSub1_of_pos h1 h2]
  rcases Nat.eq_or_lt_of_le h1 with h | h
  · have hz : s.length - 1 - 1 = 0 := by omega
    have hz2 : s.length - 2 = 0 := by omega
    rw [hz, hz2]
    simp [findPeaksIter]
  · have := findPeaksIter_spec s thr (s.length - 2) 1 [] (by omega) (by omega)
    rw [show s.length - 1 - 1 = s.length - 2 by omega, this]
    simp

lemma findPeaks_mem (s : List ℚ) (thr : ℚ) (h1 : 1 ≤ s.length) (h2 : s.length < sizeTMod) :
    ∃ l, findPeaks s thr = some l ∧ ∀ i, i ∈ l ↔ isPeak s thr i := by
  refine ⟨_, findPeaks_eq_filter s thr h1 h2, ?_⟩
  intro i
  simp only [List.mem_filter, List.mem_map, List.mem_range, decide_eq_true_eq]
  constructor
  · exact fun h => h.2
  · intro h
    refine ⟨⟨i - 1, by have := h.1; have := h.2.1; omega⟩, h⟩

/-- C2 (code bug at the empty signal): for every nonempty filtered signal whose
length fits in size_t, findPeaks returns exactly the interior strict local
maxima above the threshold, and a flat signal therefore yields no peaks; but
on the empty filtered signal the loop bound signal.size() - 1 wraps around to
2 ^ 64 - 1 and the first iteration reads signal[0] and signal[1] out of range
instead of returning the empty set the claim describes. -/
theorem findPeaks_characterization :
    (∀ (s : List ℚ) (thr : ℚ), 1 ≤ s.length → s.length < sizeTMod →
        ∃ l, findPeaks s thr = some l ∧ ∀ i, i ∈ l ↔ isPeak s thr i) ∧
    (∀ (s : List ℚ) (thr : ℚ) (v : ℚ), 1 ≤ s.length → s.length < sizeTMod →
        (∀ x ∈ s, x = v) → findPeaks s thr = some []) ∧
    (∀ thr : ℚ, findPeaks ([] : List ℚ) thr = none) := by
  refine ⟨findPeaks_mem, ?_, findPeaks_nil⟩
  intro s thr v h1 h2 hflat
  rw [findPeaks_eq_filter s thr h1 h2]
  congr 1
  rw [List.filter_eq_nil_iff]
  intro j hj
  simp only [decide_eq_true_eq]
  intro hp
  have hj1 : j - 1 < s.length := by have := hp.2.1; omega
  have hj0 : j < s.length := by have := hp.2.1; omega
  have e1 : s.getD (j - 1) 0 = v := hflat _ (getD_mem_of_lt hj1 0)
  have e2 : s.getD j 0 = v := hflat _ (getD_mem_of_lt hj0 0)
  have := hp.2.2.1
  rw [e1, e2] at this
  exact lt_irrefl v this

/-- Witness for C2 on the unimodal bump 0 0 1 5 1 0 0 with threshold 0. -/
theorem findPeaks_characterization_witness :
    (∃ l, findPeaks [(0 : ℚ), 0, 1, 5, 1, 0, 0] 0 = some l ∧
        ∀ i, i ∈ l ↔ isPeak [(0 : ℚ), 0, 1, 5, 1, 0, 0] 0 i) ∧
    findPeaks [(2 : ℚ), 2, 2] 1 = some [] ∧
    findPeaks ([] : List ℚ) 1 = none :=
  ⟨findPeaks_characterization.1 [(0 : ℚ), 0, 1, 5, 1, 0, 0] 0 (by decide)
      (by norm_num [sizeTMod]),
    findPeaks_characterization.2.1 [(2 : ℚ), 2, 2] 1 2 (by decide) (by norm_num [sizeTMod])
      (by decide),
    findPeaks_characterization.2.2 1⟩

/-- C3 (code bug at the empty signal): signals of length 1 and 2 do give the
empty peak set for every threshold, but for length 0 the loop guard
i < signal.size() - 1 underflows in size_t: the loop runs and its first
iteration reads signal[0] and signal[1], both out of range on an empty vector,
instead of returning the empty set without error. -/
theorem findPeaks_short_signals :
    (∀ (thr a : ℚ), findPeaks [a] thr = some []) ∧
    (∀ (thr a b : ℚ), findPeaks [a, b] thr = some []) ∧
    (∀ thr : ℚ, findPeaks ([] : List ℚ) thr = none ∧
      sizeSub1 (List.length ([] : List ℚ)) = 2 ^ 64 - 1) := by
  refine ⟨?_, ?_, fun thr => ⟨findPeaks_nil thr, sizeSub1_zero⟩⟩
  · intro thr a
    have h : sizeSub1 (List.length [a]) - 1 = 0 := by
      rw [sizeSub1_of_pos (by simp) (by norm_num [sizeTMod])]
      simp
    rw [findPeaks, h, findPeaksIter]
  · intro thr a b
    have h : sizeSub1 (List.length [a, b]) - 1 = 0 := by
      rw [sizeSub1_of_pos (by simp) (by norm_num [sizeTMod])]
      simp
    rw [findPeaks, h, findPeaksIter]

/- ================= processSignal: C4 ================= -/

/-- Definitional unfolding of processSignal with its let bindings resolved. -/
lemma processSignal_unfold (w : ℤ) (thr : ℚ) (lines : List (List Char)) :
    processSignal w thr lines =
      (findPeaks (movingAverage w (parseSignal lines)) thr).map fun peaks =>
        (List.range (parseSignal lines).length).map fun i =>
          ⟨(parseSignal lines).getD i 0, (movingAverage w (parseSignal lines)).getD i 0,
            peaks.contains i⟩ := rfl

/-- C4 (code bug at zero retained samples): for a file whose body lines all
parse, the output holds exactly one row per line, with the original column
reproducing the parsed values in order; but a file holding only a header row
leaves the retained signal empty, and processSignal then calls findPeaks on an
empty vector, whose loop reads out of range before the output file is opened,
instead of writing a header and zero data rows. -/
theorem processSignal_rows :
    (∀ (w : ℤ) (thr : ℚ) (hdr : List Char) (body : List (List Char)) (vals : List ℚ),
        body.map stod = vals.map some → 1 ≤ vals.length → vals.length < sizeTMod →
        ∃ rows, processSignal w thr (hdr :: body) = some rows ∧
          rows.length = vals.length ∧ rows.map OutRow.original = vals) ∧
    (∀ (w : ℤ) (thr : ℚ) (hdr : List Char), processSignal w thr [hdr] = none) ∧
    outputHeaderRow = "original,filtered,is_peak".data := by
  refine ⟨?_, ?_, rfl⟩
  · intro w thr hdr body vals hbody h1 h2
    have hsig : parseSignal (hdr :: body) = vals := by
      unfold parseSignal
      simp only [List.drop_succ_cons, List.drop_zero]
      exact filterMap_eq_of_map_some stod body vals hbody
    have hlen : (movingAverage w vals).length = vals.length := movingAverage_length w vals
    obtain ⟨l, hl, -⟩ :=
      findPeaks_mem (movingAverage w vals) thr (by rw [hlen]; exact h1) (by rw [hlen]; exact h2)
    refine ⟨(List.range vals.length).map fun i =>
        ⟨vals.getD i 0, (movingAverage w vals).getD i 0, l.contains i⟩, ?_, by simp, ?_⟩
    · rw [processSignal_unfold, hsig, hl]
      rfl
    · rw [List.map_map]
      exact map_getD_range_self vals
  · intro w thr hdr
    rw [processSignal_unfold]
    rw [show parseSignal [hdr] = ([] : List ℚ) from rfl]
    rw [show movingAverage w [] = ([] : List ℚ) from rfl, findPeaks_nil]
    rfl

/-- Witness for C4: a header line and the three numeric lines 1, 2, 3. -/
theorem processSignal_rows_witness :
    (∃ rows, processSignal 10 (1 / 2) ["h".data, "1".data, "2".data, "3".data] = some rows ∧
        rows.length = List.length [(1 : ℚ), 2, 3] ∧
        rows.map OutRow.original = [(1 : ℚ), 2, 3]) ∧
    processSignal 10 (1 / 2) ["original,filtered,is_peak".data] = none :=
  ⟨processSignal_rows.1 10 (1 / 2) "h".data ["1".data, "2".data, "3".data] [(1 : ℚ), 2, 3]
      (by simp +decide [stod, digitsToNat]) (by decide) (by norm_num [sizeTMod]),
    processSignal_rows.2.1 10 (1 / 2) "original,filtered,is_peak".data⟩

/- ================= stod prefix parsing: C10 ================= -/

/-- C10: a line is retained exactly when std::stod converts a prefix of it; a
multi-column line keeps the value before the first comma, a line with trailing
garbage keeps its leading numeric value, and a line with no leading numeric
value is dropped. -/
theorem parseSignal_prefix_rule :
    (∀ (hdr : List Char) (body : List (List Char)),
        parseSignal (hdr :: body) = body.filterMap stod) ∧
    stod "1.5,2.0".data = some (3 / 2) ∧
    stod "2.0abc".data = some 2 ∧
    stod "abc".data = none ∧
    parseSignal ["value".data, "1.5,2.0".data, "abc".data, "2.0abc".data] = [3 / 2, 2] := by
  have h15 : stod "1.5,2.0".data = some (3 / 2) := by
    simp +decide [stod, digitsToNat]
    norm_num
  have h20 : stod "2.0abc".data = some 2 := by
    simp +decide [stod, digitsToNat]
  have habc : stod "abc".data = none := by
    simp +decide [stod]
  refine ⟨fun hdr body => rfl, h15, h20, habc, ?_⟩
  unfold parseSignal
  simp only [List.drop_succ_cons, List.drop_zero]
  rw [List.filterMap_cons, h15, List.filterMap_cons, habc, List.filterMap_cons, h20]
  rfl

/- ================= Corpus analyzer: C6 ================= -/

/-- The dimension accumulators are driven only by the files that decode:
a failed decode leaves them untouched. -/
lemma foldl_dimStep_filter (l : List ImgFile) :
    ∀ st : DimStats, l.foldl dimStep st = (l.filter fun f => f.decoded.isSome).foldl dimStep st := by
  induction l with
  | nil => intro st; rfl
  | cons f l ih =>
    intro st
    rw [List.foldl_cons, List.filter_cons]
    cases hf : f.decoded with
    | none =>
      have e : dimStep st f = st := by simp [dimStep, hf]
      rw [e, ih st]
      simp [hf]
    | some wh =>
      have hs : (some wh : Option (ℤ × ℤ)).isSome = true := by simp
      rw [if_pos hs, List.foldl_cons, ih (dimStep st f)]

/-- C6 (amended to the empty corpus): analyzeImages reports no images exactly
for an empty path list; a nonempty corpus, even one with zero decodable
images, gets the statistics report, in which every file contributes its byte
size to the total, only decodable files drive the dimension extrema, and the
average divides by the nonzero 1024 times the file count. -/
theorem analyzeImages_spec :
    analyzeImages [] = AnalyzeResult.noImages ∧
    ∀ corpus : List ImgFile, corpus ≠ [] →
      analyzeImages corpus =
        AnalyzeResult.stats corpus.length ((corpus.map ImgFile.byteSize).sum)
          (((corpus.map ImgFile.byteSize).sum : ℚ) / (1024 * (corpus.length : ℚ)))
          ((corpus.filter fun f => f.decoded.isSome).foldl dimStep ⟨intMax, 0, intMax, 0⟩) ∧
      (1024 * (corpus.length : ℚ)) ≠ 0 := by
  refine ⟨rfl, ?_⟩
  intro corpus hne
  have hemp : corpus.isEmpty = false := by
    cases corpus with
    | nil => exact absurd rfl hne
    | cons f l => rfl
  constructor
  · unfold analyzeImages
    rw [hemp, if_neg (by simp : ¬(false = true))]
    dsimp only
    rw [foldl_dimStep_filter]
  · have hlen : corpus.length ≠ 0 := fun h => hne (List.length_eq_zero.mp h)
    exact mul_ne_zero (by norm_num) (Nat.cast_ne_zero.mpr hlen)

/-- Witness for C6 on a one-file corpus whose file fails to decode. -/
theorem analyzeImages_spec_witness :
    analyzeImages [] = AnalyzeResult.noImages ∧
    (analyzeImages [⟨100, none⟩] =
        AnalyzeResult.stats (List.length [(⟨100, none⟩ : ImgFile)])
          ((List.map ImgFile.byteSize [⟨100, none⟩]).sum)
          (((List.map ImgFile.byteSize [⟨100, none⟩]).sum : ℚ) /
            (1024 * (List.length [(⟨100, none⟩ : ImgFile)] : ℚ)))
          ((List.filter (fun f => f.decoded.isSome) [⟨100, none⟩]).foldl dimStep
            ⟨intMax, 0, intMax, 0⟩) ∧
      (1024 * (List.length [(⟨100, none⟩ : ImgFile)] : ℚ)) ≠ 0) :=
  ⟨analyzeImages_spec.1, analyzeImages_spec.2 [⟨100, none⟩] (by decide)⟩

/-- C6 counterexample: a corpus of one file that fails to decode has zero
decodable images, yet the analyzer does not report no images: it proceeds to
the statistics report, with the dimension extrema left at their initial
INT_MAX and 0. -/
theorem analyzeImages_undecodable_not_noImages :
    analyzeImages [⟨100, none⟩] ≠ AnalyzeResult.noImages ∧
    (⟨100, none⟩ : ImgFile).decoded.isSome = false ∧
    analyzeImages [⟨100, none⟩] =
      AnalyzeResult.stats 1 100 ((100 : ℚ) / 1024) ⟨intMax, 0, intMax, 0⟩ := by
  refine ⟨?_, rfl, ?_⟩
  · intro h
    rw [show analyzeImages [⟨100, none⟩] =
        AnalyzeResult.stats 1 100 ((100 : ℚ) / (1024 * (1 : ℚ))) ⟨intMax, 0, intMax, 0⟩
      from rfl] at h
    exact AnalyzeResult.noConfusion h
  · rw [show analyzeImages [⟨100, none⟩] =
        AnalyzeResult.stats 1 100 ((100 : ℚ) / (1024 * (1 : ℚ))) ⟨intMax, 0, intMax, 0⟩
      from rfl]
    norm_num

/- ================= File enumeration: C7 ================= -/

lemma mem_loadImagePaths (entries : List DirEntry) (p : List Char) :
    p ∈ loadImagePaths entries ↔
      ∃ e ∈ entries, e.path = p ∧ e.isRegularFile = true ∧
        e.extension.map asciiToLower ∈ imageExtensions := by
  unfold loadImagePaths
  simp only [List.mem_map, List.mem_filter, Bool.and_eq_true,
    List.contains_iff_exists_mem_beq, beq_iff_eq]
  constructor
  · rintro ⟨e, ⟨he, hreg, ⟨x, hx, hxe⟩⟩, rfl⟩
    exact ⟨e, he, rfl, hreg, by rw [hxe]; exact hx⟩
  · rintro ⟨e, he, rfl, hreg, hmem⟩
    exact ⟨e, ⟨he, hreg, ⟨_, hmem, rfl⟩⟩, rfl⟩

lemma mem_loadSignalFiles (entries : List DirEntry) (p : List Char) :
    p ∈ loadSignalFiles entries ↔
      ∃ e ∈ entries, e.path = p ∧ e.isRegularFile = true ∧ e.extension = ".csv".data := by
  unfold loadSignalFiles
  simp only [List.mem_map, List.mem_filter, Bool.and_eq_true, beq_iff_eq]
  constructor
  · rintro ⟨e, ⟨he, hreg, hext⟩, rfl⟩
    exact ⟨e, he, rfl, hreg, hext⟩
  · rintro ⟨e, he, rfl, hreg, hext⟩
    exact ⟨e, ⟨he, hreg, hext⟩, rfl⟩

/-- C7 (amended: the signal enumerator is case-sensitive): both enumerators
return exactly the regular files whose extension matches, the image pipeline
comparing the tolower-mapped extension against its allow-set, the signal
pipeline comparing the extension verbatim against ".csv"; and when the
traversal yields pairwise distinct paths the outputs have no duplicates. -/
theorem loadPaths_extension_filter :
    (∀ (entries : List DirEntry) (p : List Char),
        (p ∈ loadImagePaths entries ↔
          ∃ e ∈ entries, e.path = p ∧ e.isRegularFile = true ∧
            e.extension.map asciiToLower ∈ imageExtensions) ∧
        (p ∈ loadSignalFiles entries ↔
          ∃ e ∈ entries, e.path = p ∧ e.isRegularFile = true ∧ e.extension = ".csv".data)) ∧
    (∀ entries : List DirEntry, (entries.map DirEntry.path).Nodup →
        (loadImagePaths entries).Nodup ∧ (loadSignalFiles entries).Nodup) := by
  refine ⟨fun entries p => ⟨mem_loadImagePaths entries p, mem_loadSignalFiles entries p⟩, ?_⟩
  intro entries h
  constructor
  · exact List.Nodup.sublist
      (List.Sublist.map DirEntry.path (List.filter_sublist entries)) h
  · exact List.Nodup.sublist
      (List.Sublist.map DirEntry.path (List.filter_sublist entries)) h

/-- Witness for C7 on a one-entry traversal with an uppercase image extension. -/
theorem loadPaths_extension_filter_witness :
    (("a.JPG".data ∈ loadImagePaths [⟨"a.JPG".data, true, ".JPG".data⟩] ↔
        ∃ e ∈ [(⟨"a.JPG".data, true, ".JPG".data⟩ : DirEntry)], e.path = "a.JPG".data ∧
          e.isRegularFile = true ∧ e.extension.map asciiToLower ∈ imageExtensions) ∧
      ("a.JPG".data ∈ loadSignalFiles [⟨"a.JPG".data, true, ".JPG".data⟩] ↔
        ∃ e ∈ [(⟨"a.JPG".data, true, ".JPG".data⟩ : DirEntry)], e.path = "a.JPG".data ∧
          e.isRegularFile = true ∧ e.extension = ".csv".data)) ∧
    ((loadImagePaths [⟨"a.JPG".data, true, ".JPG".data⟩]).Nodup ∧
      (loadSignalFiles [⟨"a.JPG".data, true, ".JPG".data⟩]).Nodup) :=
  ⟨loadPaths_extension_filter.1 [⟨"a.JPG".data, true, ".JPG".data⟩] "a.JPG".data,
    loadPaths_extension_filter.2 [⟨"a.JPG".data, true, ".JPG".data⟩] (by decide)⟩

/-- C7 counterexample: a regular file with extension ".CSV" matches the
".csv" allow-set case-insensitively, yet the signal enumerator excludes it,
because SignalProcessor::loadSignalFiles compares the extension without the
tolower mapping that ImageProcessor::loadImagePaths applies; the image
enumerator does accept the uppercase ".JPG". -/
theorem loadSignalFiles_uppercase_csv_excluded :
    loadSignalFiles [⟨"a.CSV".data, true, ".CSV".data⟩] = [] ∧
    ".CSV".data.map asciiToLower = ".csv".data ∧
    loadImagePaths [⟨"b.JPG".data, true, ".JPG".data⟩] = ["b.JPG".data] := by
  decide

/- ================= Construction: C8 ================= -/

/-- C8: with a nonexistent input root the recursive listing fails, the
exception escapes both constructors, and no state (in particular no partial
corpus) is produced: construction yields exactly the directory-not-found
error for both pipelines. -/
theorem construct_missing_root :
    ∀ (outputDir : List Char) (verbose : Bool),
      ImageProcessor.construct none outputDir verbose = Except.error FsErr.directoryNotFound ∧
      SignalProcessor.construct none outputDir verbose = Except.error FsErr.directoryNotFound :=
  fun _ _ => ⟨rfl, rfl⟩

/- ================= Batch sweep state: C9 ================= -/

/-- One sweep cell updates exactly the two swept parameter fields: the
output_dir save and restore cancel, contrast_beta and apply_edge_detection are
passed back unchanged, and processAllImages leaves the state alone. -/
lemma batchStep_eq (s : IPState) (cell : ℤ × ℚ) :
    batchStep s cell = { s with blur_size := cell.1, contrast_alpha := cell.2 } := rfl

lemma foldl_batchStep :
    ∀ (l : List (ℤ × ℚ)) (s : IPState) (cell : ℤ × ℚ), l.getLast? = some cell →
      l.foldl batchStep s = { s with blur_size := cell.1, contrast_alpha := cell.2 } := by
  intro l
  induction l with
  | nil =>
    intro s cell h
    simp at h
  | cons x xs ih =>
    intro s cell h
    cases xs with
    | nil =>
      simp only [List.getLast?_singleton, Option.some.injEq] at h
      rw [← h, List.foldl_cons, List.foldl_nil, batchStep_eq]
    | cons y ys =>
      rw [List.foldl_cons, ih (batchStep s x) cell (by rwa [List.getLast?_cons_cons] at h)]
      rfl

lemma sweepCells_nil (cs : List ℚ) : sweepCells [] cs = [] := rfl

lemma sweepCells_cons (b : ℤ) (bs : List ℤ) (cs : List ℚ) :
    sweepCells (b :: bs) cs = (cs.map fun c => (b, c)) ++ sweepCells bs cs := by
  unfold sweepCells
  rw [List.flatMap_cons]

lemma sweepCells_getLast? :
    ∀ (blurs : List ℤ) (contrasts : List ℚ) (b : ℤ) (c : ℚ),
      blurs.getLast? = some b → contrasts.getLast? = some c →
      (sweepCells blurs contrasts).getLast? = some (b, c) := by
  intro blurs
  induction blurs with
  | nil =>
    intro cs b c hb hc
    simp at hb
  | cons x xs ih =>
    intro cs b c hb hc
    rw [sweepCells_cons]
    cases xs with
    | nil =>
      have hb' : x = b := by simpa using hb
      rw [sweepCells_nil, List.append_nil, List.getLast?_map, hc, hb']
      rfl
    | cons y ys =>
      have hrest := ih cs b c (by rwa [List.getLast?_cons_cons] at hb) hc
      rw [List.getLast?_append, hrest]
      rfl

/-- C9: after batchProcess with a nonempty sweep, the state equals the
pre-sweep state except that blur_size and contrast_alpha hold the last sweep
pair: output_dir is back to its pre-sweep value while the swept parameters are
not restored, so a later processAllImages on the same instance runs with the
final cell parameters. -/
theorem batchProcess_last_params (s : IPState) (blurs : List ℤ) (contrasts : List ℚ)
    (hb : blurs ≠ []) (hc : contrasts ≠ []) :
    ∃ b c, blurs.getLast? = some b ∧ contrasts.getLast? = some c ∧
      batchProcess s blurs contrasts = { s with blur_size := b, contrast_alpha := c } := by
  obtain ⟨b, hb'⟩ : ∃ b, blurs.getLast? = some b := by
    cases h : blurs.getLast? with
    | none => exact absurd (List.getLast?_eq_none_iff.mp h) hb
    | some b => exact ⟨b, rfl⟩
  obtain ⟨c, hc'⟩ : ∃ c, contrasts.getLast? = some c := by
    cases h : contrasts.getLast? with
    | none => exact absurd (List.getLast?_eq_none_iff.mp h) hc
    | some c => exact ⟨c, rfl⟩
  refine ⟨b, c, hb', hc', ?_⟩
  unfold batchProcess
  exact foldl_batchStep _ s (b, c) (sweepCells_getLast? blurs contrasts b c hb' hc')

/-- Witness for C9: sweep over blurs 3, 5 and contrasts 1, 2. -/
theorem batchProcess_last_params_witness :
    ∃ b c, ([3, 5] : List ℤ).getLast? = some b ∧ ([(1 : ℚ), 2]).getLast? = some c ∧
      batchProcess ⟨[], "out".data, false, 5, 1, 10, true⟩ [3, 5] [1, 2] =
        { (⟨[], "out".data, false, 5, 1, 10, true⟩ : IPState) with
            blur_size := b, contrast_alpha := c } :=
  batchProcess_last_params ⟨[], "out".data, false, 5, 1, 10, true⟩ [3, 5] [1, 2]
    (by decide) (by decide)

/- ================= Sweep naming: C5 ================= -/

lemma natToCharsAux_zero (fuel : ℕ) (acc : List Char) : natToCharsAux fuel 0 acc = acc := by
  cases fuel with
  | zero => rfl
  | succ fuel => rw [natToCharsAux, if_pos rfl]

lemma natToCharsAux_append :
    ∀ (fuel n : ℕ) (acc : List Char), natToCharsAux fuel n acc = natToCharsAux fuel n [] ++ acc := by
  intro fuel
  induction fuel with
  | zero => intro n acc; rfl
  | succ fuel ih =>
    intro n acc
    rw [natToCharsAux, natToCharsAux]
    by_cases hn : n = 0
    · rw [if_pos hn, if_pos hn, List.nil_append]
    · rw [if_neg hn, if_neg hn, ih (n / 10) (Char.ofNat (48 + n % 10) :: acc),
        ih (n / 10) [Char.ofNat (48 + n % 10)], List.append_assoc]
      rfl

lemma digitsToNat_append_digit (xs : List Char) (c : Char) :
    digitsToNat (xs ++ [c]) = 10 * digitsToNat xs + (c.toNat - 48) := by
  simp [digitsToNat, List.foldl_append]

lemma charDigit_toNat (d : ℕ) (hd : d < 10) : (Char.ofNat (48 + d)).toNat = 48 + d := by
  interval_cases d <;> decide

lemma digitsToNat_natToCharsAux :
    ∀ (fuel n : ℕ), 0 < n → n ≤ fuel → digitsToNat (natToCharsAux fuel n []) = n := by
  intro fuel
  induction fuel with
  | zero => intro n h1 h2; omega
  | succ fuel ih =>
    intro n h1 h2
    rw [natToCharsAux, if_neg (by omega),
      natToCharsAux_append fuel (n / 10) [Char.ofNat (48 + n % 10)]]
    have hmod : n % 10 < 10 := Nat.mod_lt n (by norm_num)
    by_cases h10 : n / 10 = 0
    · rw [h10, natToCharsAux_zero, List.nil_append]
      have hv : digitsToNat [Char.ofNat (48 + n % 10)] = (Char.ofNat (48 + n % 10)).toNat - 48 := by
        simp [digitsToNat]
      rw [hv, charDigit_toNat (n % 10) hmod]
      omega
    · rw [digitsToNat_append_digit, ih (n / 10) (by omega) (by omega),
        charDigit_toNat (n % 10) hmod]
      omega

lemma digitsToNat_natToChars (n : ℕ) : digitsToNat (natToChars n) = n := by
  unfold natToChars
  by_cases h : n = 0
  · rw [if_pos h, h]
    rfl
  · rw [if_neg h]
    exact digitsToNat_natToCharsAux n n (by omega) le_rfl

lemma natToChars_inj (m n : ℕ) (h : natToChars m = natToChars n) : m = n := by
  rw [← digitsToNat_natToChars m, ← digitsToNat_natToChars n, h]

lemma mem_natToCharsAux_digit :
    ∀ (fuel n : ℕ) (c : Char), c ∈ natToCharsAux fuel n [] → 48 ≤ c.toNat ∧ c.toNat ≤ 57 := by
  intro fuel
  induction fuel with
  | zero =>
    intro n c h
    simp [natToCharsAux] at h
  | succ fuel ih =>
    intro n c h
    rw [natToCharsAux] at h
    by_cases hn : n = 0
    · rw [if_pos hn] at h
      simp at h
    · rw [if_neg hn, natToCharsAux_append fuel (n / 10) [Char.ofNat (48 + n % 10)]] at h
      rcases List.mem_append.mp h with h1 | h1
      · exact ih (n / 10) c h1
      · have hc : c = Char.ofNat (48 + n % 10) := by simpa using h1
        subst hc
        rw [charDigit_toNat (n % 10) (Nat.mod_lt n (by omega))]
        omega

lemma mem_natToChars_digit (n : ℕ) (c : Char) (h : c ∈ natToChars n) :
    48 ≤ c.toNat ∧ c.toNat ≤ 57 := by
  unfold natToChars at h
  by_cases hn : n = 0
  · rw [if_pos hn] at h
    have : c = '0' := by simpa using h
    subst this
    decide
  · rw [if_neg hn] at h
    exact mem_natToCharsAux_digit n n c h

lemma natToChars_ne_nil (n : ℕ) : natToChars n ≠ [] := by
  unfold natToChars
  by_cases h : n = 0
  · rw [if_pos h]
    simp
  · rw [if_neg h]
    intro hnil
    have hrt := digitsToNat_natToCharsAux n n (by omega) le_rfl
    rw [hnil] at hrt
    have : digitsToNat [] = 0 := rfl
    omega

lemma intToChars_inj (i j : ℤ) (h : intToChars i = intToChars j) : i = j := by
  unfold intToChars at h
  by_cases hi : i < 0 <;> by_cases hj : j < 0
  · rw [if_pos hi, if_pos hj] at h
    simp only [List.cons.injEq, true_and] at h
    have := natToChars_inj _ _ h
    omega
  · rw [if_pos hi, if_neg hj] at h
    exfalso
    cases hcs : natToChars j.natAbs with
    | nil => exact natToChars_ne_nil j.natAbs hcs
    | cons c cs =>
      rw [hcs] at h
      simp only [List.cons.injEq] at h
      have hc : c ∈ natToChars j.natAbs := by
        rw [hcs]
        exact List.mem_cons_self c cs
      have hrange := mem_natToChars_digit j.natAbs c hc
      have h45 : ('-').toNat = 45 := rfl
      rw [← h.1] at hrange
      omega
  · rw [if_neg hi, if_pos hj] at h
    exfalso
    cases hcs : natToChars i.natAbs with
    | nil => exact natToChars_ne_nil i.natAbs hcs
    | cons c cs =>
      rw [hcs] at h
      simp only [List.cons.injEq] at h
      have hc : c ∈ natToChars i.natAbs := by
        rw [hcs]
        exact List.mem_cons_self c cs
      have hrange := mem_natToChars_digit i.natAbs c hc
      have h45 : ('-').toNat = 45 := rfl
      rw [h.1] at hrange
      omega
  · rw [if_neg hi, if_neg hj] at h
    have := natToChars_inj _ _ h
    omega

lemma underscore_not_mem_intToChars (i : ℤ) : '_' ∉ intToChars i := by
  intro hmem
  have h95 : ('_').toNat = 95 := rfl
  unfold intToChars at hmem
  by_cases hi : i < 0
  · rw [if_pos hi] at hmem
    rcases List.mem_cons.mp hmem with h | h
    · exact absurd h (by decide)
    · have := mem_natToChars_digit _ _ h
      omega
  · rw [if_neg hi] at hmem
    have := mem_natToChars_digit _ _ hmem
    omega

lemma append_sep_inj :
    ∀ (xs₁ xs₂ ys₁ ys₂ : List Char) (c : Char), c ∉ xs₁ → c ∉ xs₂ →
      xs₁ ++ c :: ys₁ = xs₂ ++ c :: ys₂ → xs₁ = xs₂ ∧ ys₁ = ys₂ := by
  intro xs₁
  induction xs₁ with
  | nil =>
    intro xs₂ ys₁ ys₂ c h1 h2 h
    cases xs₂ with
    | nil => simpa using h
    | cons b u =>
      exfalso
      rw [List.nil_append, List.cons_append] at h
      simp only [List.cons.injEq] at h
      exact h2 (h.1 ▸ List.mem_cons_self b u)
  | cons a t ih =>
    intro xs₂ ys₁ ys₂ c h1 h2 h
    cases xs₂ with
    | nil =>
      exfalso
      rw [List.nil_append, List.cons_append] at h
      simp only [List.cons.injEq] at h
      exact h1 (h.1 ▸ List.mem_cons_self a t)
    | cons b u =>
      simp only [List.cons_append, List.cons.injEq] at h
      obtain ⟨hab, h'⟩ := h
      have hrec := ih u ys₁ ys₂ c (fun hm => h1 (List.mem_cons_of_mem a hm))
        (fun hm => h2 (List.mem_cons_of_mem b hm)) h'
      exact ⟨by rw [hab, hrec.1], hrec.2⟩

/-- The parameter directory name determines the blur value and the truncated
contrast scale: the name is collision-free in the pair
(blur, trunc(contrast * 10)). -/
lemma paramDirName_inj (root : List Char) (b₁ b₂ : ℤ) (c₁ c₂ : ℚ)
    (h : paramDirName root b₁ c₁ = paramDirName root b₂ c₂) :
    b₁ = b₂ ∧ truncQ (c₁ * 10) = truncQ (c₂ * 10) := by
  unfold paramDirName at h
  simp only [List.append_assoc, List.cons_append] at h
  have h1 := List.append_cancel_left h
  simp only [List.cons.injEq, true_and, List.nil_append] at h1
  obtain ⟨hA, hK⟩ := append_sep_inj _ _ _ _ '_' (underscore_not_mem_intToChars b₁)
    (underscore_not_mem_intToChars b₂) h1
  have hK' : intToChars (truncQ (c₁ * 10)) = intToChars (truncQ (c₂ * 10)) := by
    simpa using hK
  exact ⟨intToChars_inj _ _ hA, intToChars_inj _ _ hK'⟩

lemma sweepCells_length (blurs : List ℤ) (contrasts : List ℚ) :
    (sweepCells blurs contrasts).length = blurs.length * contrasts.length := by
  induction blurs with
  | nil => simp [sweepCells_nil]
  | cons b bs ih =>
    rw [sweepCells_cons, List.length_append, ih, List.length_map, List.length_cons]
    ring

lemma mem_sweepCells (blurs : List ℤ) (contrasts : List ℚ) (b : ℤ) (c : ℚ) :
    (b, c) ∈ sweepCells blurs contrasts ↔ b ∈ blurs ∧ c ∈ contrasts := by
  unfold sweepCells
  simp only [List.mem_flatMap, List.mem_map, Prod.mk.injEq]
  constructor
  · rintro ⟨a, ha, c', hc', rfl, rfl⟩
    exact ⟨ha, hc'⟩
  · rintro ⟨hb, hc⟩
    exact ⟨b, hb, c, hc, rfl, rfl⟩

lemma sweepCells_getElem (blurs : List ℤ) (contrasts : List ℚ) :
    ∀ (i j : ℕ), i < blurs.length → j < contrasts.length →
      (sweepCells blurs contrasts)[i * contrasts.length + j]? =
        some (blurs.getD i 0, contrasts.getD j 1) := by
  induction blurs with
  | nil =>
    intro i j hi hj
    simp at hi
  | cons b bs ih =>
    intro i j hi hj
    rw [sweepCells_cons]
    cases i with
    | zero =>
      simp only [Nat.zero_mul, Nat.zero_add]
      rw [List.getElem?_append, if_pos (by simpa using hj), List.getElem?_map,
        List.getElem?_eq_getElem hj]
      have hd : contrasts.getD j 1 = contrasts[j] := by
        simp [List.getD_eq_getElem?_getD, List.getElem?_eq_getElem hj]
      rw [hd]
      rfl
    | succ i' =>
      have hlen : (contrasts.map fun c => (b, c)).length = contrasts.length := by simp
      have e : (i' + 1) * contrasts.length + j =
          contrasts.length + (i' * contrasts.length + j) := by ring
      rw [e, List.getElem?_append_right (by rw [hlen]; omega), hlen,
        Nat.add_sub_cancel_left]
      exact ih i' j (by simpa using hi) hj

/-- C5 (amended: the naming is collision-free in blur and truncated contrast,
not in the raw contrast): the sweep driver visits exactly the cartesian
product of the two parameter lists in blur-major contrast-minor order, every
cell directory has the documented blur/contrast format built from the shared
output root, and two cells receive the same directory exactly when they agree
on the blur size and on the integer truncation of contrast * 10. -/
theorem batchProcess_sweep_naming :
    (∀ (blurs : List ℤ) (contrasts : List ℚ),
        (sweepCells blurs contrasts).length = blurs.length * contrasts.length ∧
        (∀ (b : ℤ) (c : ℚ), (b, c) ∈ sweepCells blurs contrasts ↔ b ∈ blurs ∧ c ∈ contrasts) ∧
        ∀ (i j : ℕ), i < blurs.length → j < contrasts.length →
          (sweepCells blurs contrasts)[i * contrasts.length + j]? =
            some (blurs.getD i 0, contrasts.getD j 1)) ∧
    (∀ (root : List Char) (b : ℤ) (c : ℚ),
        paramDirName root b c =
          root ++ "/blur".data ++ intToChars b ++ "_contrast".data ++
            intToChars (truncQ (c * 10))) ∧
    (∀ (root : List Char) (b₁ b₂ : ℤ) (c₁ c₂ : ℚ),
        paramDirName root b₁ c₁ = paramDirName root b₂ c₂ ↔
          b₁ = b₂ ∧ truncQ (c₁ * 10) = truncQ (c₂ * 10)) := by
  refine ⟨fun blurs contrasts =>
      ⟨sweepCells_length blurs contrasts, mem_sweepCells blurs contrasts,
        sweepCells_getElem blurs contrasts⟩,
    fun root b c => rfl, fun root b₁ b₂ c₁ c₂ => ⟨paramDirName_inj root b₁ b₂ c₁ c₂, ?_⟩⟩
  rintro ⟨rfl, hK⟩
  unfold paramDirName
  rw [hK]

/-- Witness for C5: the second blur and first contrast of a 2 by 2 sweep sit
at flat index 2, and two names with equal blur and equal truncation agree. -/
theorem batchProcess_sweep_naming_witness :
    (sweepCells [3, 5] [(1 : ℚ), 2])[1 * List.length [(1 : ℚ), 2] + 0]? =
        some (List.getD [(3 : ℤ), 5] 1 0, List.getD [(1 : ℚ), 2] 0 1) ∧
    (paramDirName "out".data 3 1 = paramDirName "out".data 5 1 ↔
      (3 : ℤ) = 5 ∧ truncQ ((1 : ℚ) * 10) = truncQ ((1 : ℚ) * 10)) :=
  ⟨(batchProcess_sweep_naming.1 [3, 5] [(1 : ℚ), 2]).2.2 1 0 (by decide) (by decide),
    batchProcess_sweep_naming.2.2 "out".data 3 5 1 1⟩

/-- C5 counterexample: the distinct parameter pairs (5, 1.0) and (5, 1.05)
collide: both contrasts truncate to the integer 10 after scaling by 10, so
both cells are named blur5_contrast10 under the same root and write into the
same directory. -/
theorem paramDirName_contrast_collision :
    (5, (1 : ℚ)) ≠ (5, (21 / 20 : ℚ)) ∧
    paramDirName "out".data 5 1 = paramDirName "out".data 5 (21 / 20) := by
  constructor
  · intro h
    rw [Prod.mk.injEq] at h
    exact absurd h.2 (by norm_num)
  · unfold paramDirName
    have e1 : truncQ ((1 : ℚ) * 10) = 10 := by
      rw [show ((1 : ℚ) * 10) = (10 : ℚ) by norm_num]
      decide
    have e2 : truncQ ((21 / 20 : ℚ) * 10) = 10 := by
      rw [show ((21 / 20 : ℚ) * 10) = (21 / 2 : ℚ) by norm_num]
      norm_num [truncQ]
      decide
    rw [e1, e2]
